import Mathlib

/-!
Verification development for the minicons incremental build engine
(modules minicons/execution.py, minicons/entry.py, minicons/environment.py,
minicons/main.py).

The Python code is shallowly embedded: nodes and builders are identified by
natural numbers, Python sets are modelled as insertion-ordered duplicate-free
lists (Python's set iteration order is unspecified, so any fixed
linearization is a faithful execution), Python dicts keyed by nodes are
modelled as functions or association lists, and the worklist loops of the
source are modelled with an explicit fuel argument large enough for the loop
to run to completion (lemmas below discharge the fuel where a theorem needs
it).  Filesystem observations (`Entry.get_metadata`) are modelled by a state
assigning each node an optional abstract metadata value; `None` models a
missing path.
-/

set_option maxRecDepth 10000

/-- Node identifiers (an `Entry`'s absolute path, or the identity of a
non-entry node such as a `FileSet`). -/
abbrev NodeId := Nat

/-- Builder identifiers. -/
abbrev BId := Nat

/-- Abstract observed file metadata (the `(mtime_ns, mode, size)` record of
`File.get_metadata`); only equality of records matters to the engine. -/
abbrev MetaVal := Nat

/-- Python `set.add`: append if not already present (insertion order kept). -/
def pySetAdd (l : List NodeId) (x : NodeId) : List NodeId :=
  if x ∈ l then l else l ++ [x]

/-- Python `set.update` with an iterable. -/
def pySetUnion (l : List NodeId) (xs : List NodeId) : List NodeId :=
  xs.foldl pySetAdd l

/-- Insertion-ordered deduplication: the linearization used for Python `set`
iteration in this model. -/
def pyDedup (xs : List NodeId) : List NodeId :=
  xs.foldl pySetAdd []

/-- Pointwise update of a map modelled as a function. -/
def fupd {α : Type} (f : Nat → α) (k : Nat) (v : α) : Nat → α :=
  fun x => if x = k then v else f x

/-- The static build graph assembled by the construct file: node attributes
(`Node.depends`, `Node.builder`, whether the node is an `Entry`) and builder
attributes (`Builder.depends`, `Builder.builds`).  `buildResult` models the
metadata the filesystem reports for an entry after builder `b` has written
it (builders are deterministic writers in this model). -/
structure BuildGraph where
  nodes : List NodeId
  isEntry : NodeId → Bool
  builder : NodeId → Option BId
  depends : NodeId → List NodeId
  bdepends : BId → List NodeId
  bbuilds : BId → List NodeId
  buildResult : BId → NodeId → MetaVal

/-- Effective dependencies of a node, from `_traverse_node_graph`
(execution.py lines 469-482): the union of the node's explicit `depends`,
its builder's `depends`, and the `depends` of every sibling output of the
same builder. -/
def effDeps (g : BuildGraph) (v : NodeId) : List NodeId :=
  pyDedup (g.depends v ++
    (match g.builder v with
     | some b => g.bdepends b ++ (g.bbuilds b).flatMap g.depends
     | none => []))

/-- State of the `_traverse_node_graph` worklist loop.  `toVisit` is the
Python list used as a stack, with the head of the Lean list being the end of
the Python list (the next element popped). -/
structure TravState where
  reachable : List NodeId
  edges : List (NodeId × NodeId)
  seen : List NodeId
  toVisit : List NodeId
  deriving Repr, DecidableEq

/-- One iteration of the `while to_visit:` loop of `_traverse_node_graph`
(execution.py lines 464-487): pop a node, append it to the reachable list,
mark it seen, record an edge to each effective dependency, and push the
dependencies not yet seen. -/
def travStep (g : BuildGraph) (v : NodeId) (rest : List NodeId)
    (s : TravState) : TravState :=
  let seen1 := pySetAdd s.seen v
  let deps := effDeps g v
  { reachable := s.reachable ++ [v]
    edges := s.edges ++ deps.map (fun d => (v, d))
    seen := seen1
    toVisit := (deps.filter (fun d => ¬ d ∈ seen1)).reverse ++ rest }

/-- The `_traverse_node_graph` loop, with fuel. -/
def travLoop (g : BuildGraph) : Nat → TravState → TravState
  | 0, s => s
  | fuel + 1, s =>
    match s.toVisit with
    | [] => s
    | v :: rest => travLoop g fuel (travStep g v rest s)

/-- Fuel that always suffices for `travLoop` (proved below): one unit per
initial worklist element plus one per effective-dependency edge. -/
def travFuel (g : BuildGraph) (targets : List NodeId) : Nat :=
  targets.length + ((g.nodes.map (fun v => (effDeps g v).length)).sum) + 1

/-- `_traverse_node_graph(targets)` (execution.py lines 452-488). -/
def traverseNodeGraph (g : BuildGraph) (targets : List NodeId) : TravState :=
  travLoop g (travFuel g targets)
    { reachable := [], edges := [], seen := [], toVisit := targets.reverse }

/-- The dependency lists of the traversal's `edges` defaultdict:
`edges[n]` in append order (`[]` for absent keys). -/
def edgesOf (pairs : List (NodeId × NodeId)) (n : NodeId) : List NodeId :=
  (pairs.filter (fun p => p.1 = n)).map (fun p => p.2)

/-- Keys of the `edges` mapping in insertion order. -/
def keysOf (pairs : List (NodeId × NodeId)) : List NodeId :=
  pyDedup (pairs.map (fun p => p.1))

/-- `_sort_dag`'s working copy `edges = defaultdict(set, ...)`: the
deduplicated dependency set of each key. -/
def kEdges0 (pairs : List (NodeId × NodeId)) (n : NodeId) : List NodeId :=
  pyDedup (edgesOf pairs n)

/-- `_sort_dag`'s `reverse_edges`: the keys whose dependency set contains
`d`. -/
def kRev0 (pairs : List (NodeId × NodeId)) (d : NodeId) : List NodeId :=
  (keysOf pairs).filter (fun e => d ∈ kEdges0 pairs e)

/-- State of the Kahn loop in `_sort_dag` (execution.py lines 512-522).
`leaf` is the Python `leaf_nodes` list as a stack (head = next pop). -/
structure KahnState where
  edges : NodeId → List NodeId
  rev : NodeId → List NodeId
  sorted : List NodeId
  leaf : List NodeId

/-- One iteration of the `while leaf_nodes:` loop of `_sort_dag`: pop a
leaf, append it to the sorted output, and for every node depending on it
remove the edge, collecting nodes whose dependency set became empty as new
leaves. -/
def kahnStep (v : NodeId) (rest : List NodeId) (s : KahnState) : KahnState :=
  let ms := s.rev v
  let edges1 := ms.foldl (fun f m => fupd f m ((f m).erase v)) s.edges
  { edges := edges1
    rev := fupd s.rev v []
    sorted := s.sorted ++ [v]
    leaf := (ms.filter (fun m => edges1 m = [])).reverse ++ rest }

/-- The `_sort_dag` loop, with fuel. -/
def kahnLoop : Nat → KahnState → KahnState
  | 0, s => s
  | fuel + 1, s =>
    match s.leaf with
    | [] => s
    | v :: rest => kahnLoop fuel (kahnStep v rest s)

/-- Fuel for `kahnLoop`: every iteration pops one leaf, and a node enters
the leaf list at most once per edge removed plus once from the initial
scan, so the iteration count is bounded by `nodes + pairs`. -/
def kahnFuel (nodes : List NodeId) (pairs : List (NodeId × NodeId)) : Nat :=
  nodes.length + pairs.length + 1

/-- Initial Kahn state: working copies of the edge maps, and the leaf list
`[n for n in nodes if not edges.get(n)]`. -/
def kahnInit (nodes : List NodeId) (pairs : List (NodeId × NodeId)) :
    KahnState :=
  { edges := kEdges0 pairs
    rev := kRev0 pairs
    sorted := []
    leaf := (nodes.filter (fun n => kEdges0 pairs n = [])).reverse }

/-- The residual edges `(n, dep)` with `dep ∈ edges[n]` left over after the
Kahn loop; a nonempty residual is reported as a cycle. -/
def kahnResidual (pairs : List (NodeId × NodeId)) (s : KahnState) :
    List (NodeId × NodeId) :=
  (keysOf pairs).flatMap (fun n => (s.edges n).map (fun d => (n, d)))

/-- `_sort_dag(nodes, edges)` (execution.py lines 491-530): the topological
order on success, or the residual edge list on a cycle. -/
def sortDag (nodes : List NodeId) (pairs : List (NodeId × NodeId)) :
    Except (List (NodeId × NodeId)) (List NodeId) :=
  let final := kahnLoop (kahnFuel nodes pairs) (kahnInit nodes pairs)
  let residual := kahnResidual pairs final
  if residual = [] then .ok final.sorted else .error residual

/-- A metadata signature: the dict `{str(dep.path): metadata[dep]}` built by
`_metadata_signature` (execution.py lines 444-449), keyed here by node id. -/
abbrev Sig := List (NodeId × Option MetaVal)

/-- Dict lookup on a signature (`dict.get`): `none` models a missing key,
`some m` a present key with value `m` (itself `none` when the dependency's
path did not exist when observed). -/
def sigLookup (s : Sig) (k : NodeId) : Option (Option MetaVal) :=
  match s.find? (fun p => p.1 = k) with
  | some p => some p.2
  | none => none

/-- Python dict equality (`==` on dicts): same keys, equal values;
independent of insertion order. -/
def sigEq (a b : Sig) : Bool :=
  a.all (fun p => sigLookup b p.1 = some p.2) &&
    b.all (fun p => sigLookup a p.1 = some p.2)

/-- Python `dict.get(k)` on a signature: `None` both for a missing key and
for a present key whose stored value is `None` (a dependency whose path did
not exist when the signature was recorded) — the two are conflated, exactly
as in the source's `old_metadata.get(path) != new_metadata.get(path)`. -/
def sigGet (s : Sig) (k : NodeId) : Option MetaVal :=
  match s.find? (fun p => p.1 = k) with
  | some p => p.2
  | none => none

/-- Mutable engine-visible state: the observed filesystem metadata of every
node's path (`none` = path does not exist) and the persistent metadata store
(`file_metadata` table; `none` = no row for that path). -/
structure FsState where
  fsMeta : NodeId → Option MetaVal
  store : NodeId → Option Sig

/-- The signature of a node as computed in `prepare_build`:
`_metadata_signature(metadata, all_dependencies[node])`, where `metadata`
holds each entry's currently observed filesystem metadata. -/
def sigOf (st : FsState) (deps : List NodeId) : Sig :=
  deps.map (fun d => (d, st.fsMeta d))

/-- The inner worklist of the `all_dependencies` computation
(execution.py lines 172-180): walk `edges` towards the leaves from one node,
collecting every `Entry` encountered; non-entry nodes are traversed through
but not collected.  The source has no seen-set here, so the loop terminates
only on acyclic graphs; fuel exhaustion is reported as `none`. -/
def adLoop (g : BuildGraph) (pairs : List (NodeId × NodeId)) :
    Nat → List NodeId → List NodeId → Option (List NodeId)
  | 0, acc, tv => if tv = [] then some acc else none
  | _ + 1, acc, [] => some acc
  | fuel + 1, acc, v :: tv =>
    adLoop g pairs fuel (if g.isEntry v then pySetAdd acc v else acc)
      ((edgesOf pairs v).reverse ++ tv)

/-- Generous fuel for `adLoop`: the loop visits at most one node per
distinct downward path, which is bounded by `(edges+2)^(nodes+2)` on an
acyclic graph. -/
def adFuel (g : BuildGraph) (pairs : List (NodeId × NodeId)) : Nat :=
  (pairs.length + 2) ^ (g.nodes.length + 2)

/-- `all_dependencies[node]` for a single node. -/
def allDepsOf (g : BuildGraph) (pairs : List (NodeId × NodeId))
    (n : NodeId) : Option (List NodeId) :=
  adLoop g pairs (adFuel g pairs) [] ((edgesOf pairs n).reverse)

/-- Errors surfaced by `prepare_build` / `build_targets`.  `cycle` carries
the residual edges listed by the `DependencyError` of `_sort_dag`;
`missing` is the "Path ... required but not present" `DependencyError`;
`fuelOut` is a model artifact marking a run that exceeded its fuel. -/
inductive BuildErr where
  | cycle (residual : List (NodeId × NodeId))
  | missing (n : NodeId)
  | missingOutput (n : NodeId)
  | internal
  | fuelOut
  deriving Repr, DecidableEq

/-- The `PreparedBuild` record (execution.py lines 36-44), plus the
`all_nodes` traversal list which the source keeps in a local variable. -/
structure PreparedBuild where
  orderedNodes : List NodeId
  edges : List (NodeId × NodeId)
  outOfDate : List NodeId
  toBuild : List NodeId
  changed : List NodeId
  entryDependencies : NodeId → List NodeId
  targets : List NodeId
  allNodes : List NodeId

/-- One step of the staleness classification (execution.py lines 196-213),
folded over `all_nodes`: an entry with a builder is outdated when its path
is missing or its stored signature differs from the fresh one; on a
difference, every dependency whose value differs between a *present* stored
signature and the fresh signature is marked changed. -/
def classifyStep (g : BuildGraph) (st : FsState)
    (adMap : NodeId → List NodeId) (acc : List NodeId × List NodeId)
    (node : NodeId) : List NodeId × List NodeId :=
  if g.isEntry node ∧ (g.builder node).isSome then
    if st.fsMeta node = none then (pySetAdd acc.1 node, acc.2)
    else
      let newSig := sigOf st (adMap node)
      match st.store node with
      | none => (pySetAdd acc.1 node, acc.2)
      | some old =>
        if sigEq old newSig then acc
        else
          (pySetAdd acc.1 node,
            (adMap node).foldl
              (fun ch dep =>
                if sigGet old dep ≠ sigGet newSig dep then
                  pySetAdd ch dep
                else ch)
              acc.2)
  else acc

/-- The `(outdated, changed)` pair computed by `prepare_build`. -/
def classify (g : BuildGraph) (st : FsState)
    (adMap : NodeId → List NodeId) (allNodes : List NodeId) :
    List NodeId × List NodeId :=
  allNodes.foldl (classifyStep g st adMap) ([], [])

/-- Downward propagation (execution.py lines 220-223): a node with any
dependency in `to_build` joins `to_build`, in topological order. -/
def propagateDown (pairs : List (NodeId × NodeId)) (ordered : List NodeId)
    (outdated : List NodeId) : List NodeId :=
  ordered.foldl
    (fun tb node =>
      if (edgesOf pairs node).any (fun d => d ∈ tb) then pySetAdd tb node
      else tb)
    outdated

/-- Upward propagation through non-entry dependencies (execution.py lines
236-242): in reverse order, a `to_build` node pulls in its non-entry
dependencies that have builders. -/
def propagateUp (g : BuildGraph) (pairs : List (NodeId × NodeId))
    (ordered : List NodeId) (tb0 : List NodeId) : List NodeId :=
  ordered.reverse.foldl
    (fun tb node =>
      if node ∈ tb then
        pySetUnion tb
          ((edgesOf pairs node).filter
            (fun d => ¬ g.isEntry d ∧ (g.builder d).isSome))
      else tb)
    tb0

/-- `Execution.prepare_build(targets)` (execution.py lines 146-252):
traverse the node graph, topologically sort it, compute every node's
ancestor entries, check that builder-less entries exist on disk, classify
stale entries, and close `to_build` downward and upward. -/
def prepareBuild (g : BuildGraph) (st : FsState) (targets : List NodeId) :
    Except BuildErr PreparedBuild :=
  let out := traverseNodeGraph g targets
  let allNodes := out.reachable
  let pairs := out.edges
  match sortDag allNodes pairs with
  | .error residual => .error (.cycle residual)
  | .ok ordered =>
    if allNodes.all (fun n => (allDepsOf g pairs n).isSome) then
      let adMap : NodeId → List NodeId :=
        fun n => (allDepsOf g pairs n).getD []
      let entryNodes := allNodes.filter (fun n => g.isEntry n)
      match entryNodes.find?
          (fun e => g.builder e = none && st.fsMeta e = none) with
      | some m => .error (.missing m)
      | none =>
        let oc := classify g st adMap allNodes
        let tb := propagateUp g pairs ordered
          (propagateDown pairs ordered oc.1)
        .ok { orderedNodes := ordered
              edges := pairs
              outOfDate := oc.1
              toBuild := tb
              changed := oc.2
              entryDependencies := adMap
              targets := targets
              allNodes := allNodes }
    else .error .fuelOut

/-- `_call_builder` with `dry_run=False` (execution.py lines 393-421): each
entry output is removed, prepared, and then written by `build()`; the net
filesystem effect is that every entry output's observed metadata becomes the
builder's result for it.  Non-entry outputs have no filesystem effect. -/
def callBuilder (g : BuildGraph) (b : BId) (fs : NodeId → Option MetaVal) :
    NodeId → Option MetaVal :=
  (g.bbuilds b).foldl
    (fun f o => if g.isEntry o then fupd f o (some (g.buildResult b o)) else f)
    fs

/-- The metadata cache of `build_targets`: an association list from an entry
to the observed metadata recorded the first time any builder update needed
it. -/
abbrev MetaCache := List (NodeId × Option MetaVal)

/-- Cache lookup; a miss falls back to the live filesystem (the source
always fills the cache before reading it, so the fallback models exactly
`metadata_cache[dep] = dep.get_metadata()`). -/
def cacheGet (c : MetaCache) (fs : NodeId → Option MetaVal) (d : NodeId) :
    Option MetaVal :=
  match c.find? (fun p => p.1 = d) with
  | some p => p.2
  | none => fs d

/-- `for dep in entry_dependencies[built_entry]: if dep not in
metadata_cache: metadata_cache[dep] = dep.get_metadata()` (execution.py
lines 433-435). -/
def cacheFill (c : MetaCache) (fs : NodeId → Option MetaVal)
    (deps : List NodeId) : MetaCache :=
  deps.foldl
    (fun c d =>
      if (c.find? (fun p => p.1 = d)).isSome then c else c ++ [(d, fs d)])
    c

/-- `_update_builder_metadata` (execution.py lines 423-449): for each entry
output of the builder, fill the metadata cache with its dependencies and
persist the signature built from the cache. -/
def updateBuilderMetadata (g : BuildGraph)
    (adMap : NodeId → List NodeId) (b : BId)
    (fs : NodeId → Option MetaVal) (cache : MetaCache)
    (store : NodeId → Option Sig) : MetaCache × (NodeId → Option Sig) :=
  ((g.bbuilds b).filter (fun o => g.isEntry o)).foldl
    (fun (acc : MetaCache × (NodeId → Option Sig)) o =>
      let c := cacheFill acc.1 fs (adMap o)
      (c, fupd acc.2 o (some ((adMap o).map (fun d => (d, cacheGet c fs d))))))
    (cache, store)

/-- Accumulator of the sequential build loop: filesystem + store state, the
`built_nodes` set, the metadata cache, and the log of builder invocations in
order. -/
structure ExecAcc where
  st : FsState
  built : List NodeId
  cache : MetaCache
  log : List BId

/-- One iteration of the sequential build loop (execution.py lines
298-311): a `to_build` node that is not yet built and has a builder causes
one `_call_builder` invocation followed by a metadata update. -/
def seqStep (g : BuildGraph) (pb : PreparedBuild) (dryRun : Bool)
    (acc : ExecAcc) (node : NodeId) : ExecAcc :=
  if node ∈ pb.toBuild ∧ ¬ node ∈ acc.built ∧ (g.builder node).isSome then
    match g.builder node with
    | some b =>
      let fs1 := if dryRun then acc.st.fsMeta else callBuilder g b acc.st.fsMeta
      let built1 := pySetUnion acc.built (g.bbuilds b)
      if dryRun then
        { st := { fsMeta := fs1, store := acc.st.store }, built := built1
          cache := acc.cache, log := acc.log ++ [b] }
      else
        let cs := updateBuilderMetadata g pb.entryDependencies b fs1 acc.cache
          acc.st.store
        { st := { fsMeta := fs1, store := cs.2 }, built := built1
          cache := cs.1, log := acc.log ++ [b] }
    | none => acc
  else acc

/-- Post-build verification (execution.py lines 417-419): every entry output
of an invoked builder must exist afterwards.  In this model `callBuilder`
always writes its outputs, so this check is satisfied by construction; it is
kept to mirror the source's contract. -/
def outputsExist (g : BuildGraph) (b : BId)
    (fs : NodeId → Option MetaVal) : Bool :=
  (g.bbuilds b).all (fun o => !g.isEntry o || (fs o).isSome)

/-- The sequential arm of `build_targets` on an already prepared build
(execution.py lines 284-311), returning the final state and the invocation
log.  The early `if not to_build: return` of the source is an identity on
this state. -/
def runSeqBuild (g : BuildGraph) (pb : PreparedBuild) (dryRun : Bool)
    (st : FsState) : ExecAcc :=
  if pb.toBuild = [] then { st := st, built := [], cache := [], log := [] }
  else
    pb.orderedNodes.foldl (seqStep g pb dryRun)
      { st := st, built := [], cache := [], log := [] }

/-- `Execution.build_targets(targets, dry_run=..., parallel=False)`
(execution.py lines 254-311): prepare, then run the sequential scheduler.
The first component is the list of builder invocations made, present even
when the run fails, so that "no builder ran" is expressible. -/
def buildTargetsSeq (g : BuildGraph) (st : FsState) (targets : List NodeId)
    (dryRun : Bool) : List BId × Except BuildErr FsState :=
  match prepareBuild g st targets with
  | .error e => ([], .error e)
  | .ok pb =>
    let acc := runSeqBuild g pb dryRun st
    (acc.log, .ok acc.st)

/-- Accumulator of the parallel scheduler (execution.py lines 312-391):
`ready` is `ready_to_execute` (insertion-ordered; `set.pop()` is modelled as
taking the head), `inFlight` the set of submitted, not yet completed
futures in submission order, `toExec` the remaining `to_execute` set. -/
structure ParAcc where
  ready : List NodeId
  built : List NodeId
  toExec : List NodeId
  inFlight : List BId
  st : FsState
  cache : MetaCache
  log : List BId

/-- The initial readiness scan (execution.py lines 322-328): a node whose
dependencies are all built is recorded as built when it is not in
`to_build`, and as ready otherwise. -/
def parInitScan (pb : PreparedBuild) : List NodeId × List NodeId :=
  pb.orderedNodes.foldl
    (fun (acc : List NodeId × List NodeId) node =>
      if (edgesOf pb.edges node).all (fun d => d ∈ acc.1) then
        if node ∈ pb.toBuild then (acc.1, pySetAdd acc.2 node)
        else (pySetAdd acc.1 node, acc.2)
      else acc)
    ([], [])

/-- The rescan after a future completes (execution.py lines 375-383): any
node, with all dependencies built and itself not built, becomes ready when
it has a builder and built otherwise. -/
def parRescan (g : BuildGraph) (pb : PreparedBuild)
    (built : List NodeId) (ready : List NodeId) :
    List NodeId × List NodeId :=
  pb.orderedNodes.foldl
    (fun (acc : List NodeId × List NodeId) node =>
      if (edgesOf pb.edges node).all (fun d => d ∈ acc.1) ∧
          ¬ node ∈ acc.1 then
        if (g.builder node).isSome then (acc.1, pySetAdd acc.2 node)
        else (pySetAdd acc.1 node, acc.2)
      else acc)
    (built, ready)

/-- The `while True:` loop of the parallel scheduler.  `sched` linearizes
`concurrent.futures.wait(..., FIRST_COMPLETED)`: at the `k`-th wait it
selects which in-flight future completes.  Submission applies the builder's
filesystem effects (the effects of `build()` happen while the future is in
flight, before its completion is observed). -/
def parLoop (g : BuildGraph) (pb : PreparedBuild) (dryRun : Bool)
    (sched : Nat → Nat) : Nat → Nat → ParAcc → ParAcc × Option BuildErr
  | 0, _, acc => (acc, some .fuelOut)
  | fuel + 1, k, acc =>
    match acc.ready with
    | node :: restReady =>
      match g.builder node with
      | none => (acc, some .internal)
      | some b =>
        if (g.bbuilds b).any
            (fun s => (edgesOf pb.edges s).any (fun d => ¬ d ∈ acc.built))
        then (acc, some .internal)
        else
          let fs1 := if dryRun then acc.st.fsMeta
            else callBuilder g b acc.st.fsMeta
          parLoop g pb dryRun sched fuel k
            { ready := restReady.filter (fun n => ¬ n ∈ g.bbuilds b)
              built := acc.built
              toExec := acc.toExec.filter (fun n => ¬ n ∈ g.bbuilds b)
              inFlight := acc.inFlight ++ [b]
              st := { fsMeta := fs1, store := acc.st.store }
              cache := acc.cache
              log := acc.log ++ [b] }
    | [] =>
      match acc.inFlight with
      | [] =>
        if acc.toExec = [] then (acc, none) else (acc, some .internal)
      | _ :: _ =>
        let i := sched k % acc.inFlight.length
        let b := acc.inFlight.getD i 0
        let inFlight1 := acc.inFlight.eraseIdx i
        let built1 := pySetUnion acc.built (g.bbuilds b)
        let cs :=
          if dryRun then (acc.cache, acc.st.store)
          else updateBuilderMetadata g pb.entryDependencies b acc.st.fsMeta
            acc.cache acc.st.store
        let rb := parRescan g pb built1 acc.ready
        parLoop g pb dryRun sched fuel (k + 1)
          { ready := rb.2
            built := rb.1
            toExec := acc.toExec
            inFlight := inFlight1
            st := { fsMeta := acc.st.fsMeta, store := cs.2 }
            cache := cs.1
            log := acc.log }

/-- The parallel arm of `build_targets` on a prepared build (`parallel > 1`,
execution.py lines 312-391). -/
def runParBuild (g : BuildGraph) (pb : PreparedBuild) (dryRun : Bool)
    (sched : Nat → Nat) (fuel : Nat) (st : FsState) :
    ParAcc × Option BuildErr :=
  if pb.toBuild = [] then
    ({ ready := [], built := [], toExec := [], inFlight := [], st := st,
       cache := [], log := [] }, none)
  else
    let ib := parInitScan pb
    parLoop g pb dryRun sched fuel 0
      { ready := ib.2, built := ib.1, toExec := pb.toBuild, inFlight := [],
        st := st, cache := [], log := [] }

/-- `build_targets` with `parallel > 1`: prepare, then run the parallel
scheduler; the first component is the invocation log. -/
def buildTargetsPar (g : BuildGraph) (st : FsState) (targets : List NodeId)
    (dryRun : Bool) (sched : Nat → Nat) (fuel : Nat) :
    List BId × Except BuildErr FsState :=
  match prepareBuild g st targets with
  | .error e => ([], .error e)
  | .ok pb =>
    let r := runParBuild g pb dryRun sched fuel st
    match r.2 with
    | some e => (r.1.log, .error e)
    | none => (r.1.log, .ok r.1.st)

/-- The concrete class of a node object (`File`, `Dir`, or `FileSet`). -/
inductive PyVariant where
  | file
  | dir
  | fileset
  deriving Repr, DecidableEq

/-- Whether a variant is an `Entry` subclass. -/
def isEntryVariant : PyVariant → Bool
  | .file => true
  | .dir => true
  | .fileset => false

/-- A Python node instance: object identity (`id`), concrete class, and for
entries the absolute path (paths are abstracted to naturals). `FileSet`
instances have no path. -/
structure PyNode where
  id : Nat
  variant : PyVariant
  path : Option Nat
  deriving Repr, DecidableEq

/-- `Entry.__eq__` (entry.py lines 78-79): equal iff the other object is an
instance of the same concrete class and the paths are equal (`File` and
`Dir` do not subclass each other). -/
def entryEqPy (a b : PyNode) : Bool :=
  a.variant == b.variant && a.path == b.path

/-- `Entry.__hash__` (entry.py lines 75-76): the hash of the path, for an
arbitrary path-hash function `h`. -/
def entryHashPy (h : Nat → Nat) (a : PyNode) : Option Nat :=
  a.path.map h

/-- Python set membership keyed by `Entry.__eq__`. -/
def pyNodeMem (s : List PyNode) (x : PyNode) : Bool :=
  s.any (fun y => entryEqPy y x)

/-- The entry-interning table of an `Execution` (`Execution.entries`) and
the instance-allocation counter used to model object identity. -/
structure PyExec where
  entries : List (Nat × PyNode)
  nextId : Nat
  deriving Repr, DecidableEq

/-- `Entry.__new__` (entry.py lines 50-65): look the absolute path up in
`execution.entries`; an existing entry of the wrong class is a `TypeError`,
an existing entry of the right class is returned.  Otherwise a fresh
instance is allocated and returned — the source stores nothing back into
`execution.entries`. -/
def entryNew (cls : PyVariant) (ex : PyExec) (path : Nat) :
    Except Unit (PyNode × PyExec) :=
  match ex.entries.find? (fun q => q.1 = path) with
  | some q => if q.2.variant = cls then .ok (q.2, ex) else .error ()
  | none =>
    .ok ({ id := ex.nextId, variant := cls, path := some path },
      { ex with nextId := ex.nextId + 1 })

/-- `Environment.file(path)` for a path argument (environment.py lines
40-46): constructs `File(self, path)`. -/
def envFile (ex : PyExec) (path : Nat) : Except Unit (PyNode × PyExec) :=
  entryNew .file ex path

/-- `Environment.dir(path)` for a path argument (environment.py lines
48-54). -/
def envDir (ex : PyExec) (path : Nat) : Except Unit (PyNode × PyExec) :=
  entryNew .dir ex path

/-- Argument shapes accepted by `FileSet.add` (entry.py lines 229-257): a
node, a `SourceLike` (object with a `.target`), a string/0`Path`, or a
nested iterable. -/
inductive FsSource where
  | node (n : PyNode)
  | srcLike (t : FsSource)
  | strPath (p : Nat)
  | many (xs : List FsSource)
  deriving Repr

mutual

/-- Structural size of a `FileSet.add` argument, used as loop fuel. -/
def fsSize : FsSource → Nat
  | .node _ => 1
  | .strPath _ => 1
  | .srcLike t => fsSize t + 1
  | .many xs => fsSizeList xs + 1

/-- Total structural size of a list of `FileSet.add` arguments. -/
def fsSizeList : List FsSource → Nat
  | [] => 0
  | x :: xs => fsSize x + fsSizeList xs

end

/-- State visible to `FileSet.add`: the interning table, the filesystem
predicates backing `Path.is_file`/`Path.is_dir`, the allocation counter, and
the file set's `depends` set and `_sources` list. -/
structure FsAddState where
  entries : List (Nat × PyNode)
  isFile : Nat → Bool
  isDir : Nat → Bool
  nextId : Nat
  depends : List PyNode
  sources : List PyNode

/-- `self.depends.add(node)`: set insertion keyed by the node's `__eq__`. -/
def depAdd (l : List PyNode) (x : PyNode) : List PyNode :=
  if l.any (fun y => entryEqPy y x) then l else l ++ [x]

/-- The worklist loop of `FileSet.add` (entry.py lines 230-257).  `stack`
is the Python `to_process` list with the head as the next pop.  A
string/path argument not in the interning table resolves to a fresh `File`
if the path is currently a file, a fresh `Dir` if it is a directory, and is
a `ValueError` otherwise; no builder information is consulted. -/
def fsAddLoop : Nat → List FsSource → FsAddState →
    Except String FsAddState
  | 0, _, _ => .error "fuel"
  | _ + 1, [], st => .ok st
  | fuel + 1, x :: rest, st =>
    match x with
    | .srcLike t => fsAddLoop fuel (t :: rest) st
    | .node n =>
      fsAddLoop fuel rest
        { st with depends := depAdd st.depends n,
                  sources := st.sources ++ [n] }
    | .strPath p =>
      match st.entries.find? (fun q => q.1 = p) with
      | some q =>
        fsAddLoop fuel rest
          { st with depends := depAdd st.depends q.2,
                    sources := st.sources ++ [q.2] }
      | none =>
        if st.isFile p then
          let e : PyNode := { id := st.nextId, variant := .file,
                              path := some p }
          fsAddLoop fuel rest
            { st with nextId := st.nextId + 1,
                      depends := depAdd st.depends e,
                      sources := st.sources ++ [e] }
        else if st.isDir p then
          let e : PyNode := { id := st.nextId, variant := .dir,
                              path := some p }
          fsAddLoop fuel rest
            { st with nextId := st.nextId + 1,
                      depends := depAdd st.depends e,
                      sources := st.sources ++ [e] }
        else .error "Path not found."
    | .many xs => fsAddLoop fuel (xs.reverse ++ rest) st

/-- `FileSet.add(sources)` (entry.py lines 229-257); the structural size of
the argument bounds the number of loop iterations, so this fuel always
suffices. -/
def fileSetAdd (st : FsAddState) (src : FsSource) :
    Except String FsAddState :=
  fsAddLoop (fsSize src + 1) [src] st

/-- An absolute filesystem path as its list of components below the
filesystem anchor; `[]` is the anchor `/` itself. -/
abbrev PyPath := List String

/-- `PurePath.parents`: the strict ancestors of a path, nearest first, the
anchor last (`Path("/a/b/c").parents == [/a/b, /a, /]`). -/
def pyParents (p : PyPath) : List PyPath :=
  (List.range p.length).map (fun i => p.take (p.length - (i + 1)))

/-- `PurePath.relative_to(q)`: strip the prefix `q`, a `ValueError` when `q`
is not an ancestor-or-self of the path. -/
def pyRelativeTo (p q : PyPath) : Except Unit PyPath :=
  if q.isPrefixOf p then .ok (p.drop q.length) else .error ()

/-- `Environment.get_rel_path(src)` for an absolute `src` (environment.py
lines 56-93): if `build_root` occurs in `src.parents` at position `index`,
the result is `src` relative to `src.parents[index - 1]` (for `index = 0`
this is Python's negative indexing: `parents[-1]`, the filesystem anchor);
otherwise `src` relative to `root`. -/
def getRelPath (root buildRoot src : PyPath) : Except Unit PyPath :=
  match (pyParents src).findIdx? (fun q => q = buildRoot) with
  | none => pyRelativeTo src root
  | some i =>
    let parents := pyParents src
    let anc := if i = 0 then parents.getLastD [] else parents.getD (i - 1) []
    pyRelativeTo src anc

/-- The stem of a filename (`PurePath.stem`): the name with its last
extension removed; a name with no dot, or only a leading dot, has no
extension. -/
def pyStem (name : String) : String :=
  let parts := name.splitOn "."
  match parts with
  | [] => name
  | [_] => name
  | x :: rest =>
    if x = "" ∧ rest.length = 1 then name
    else String.intercalate "." (List.dropLast parts)

/-- `PurePath.with_suffix(ext)`: replace the last component's extension
(an empty `ext` strips it). -/
def pyWithSuffix (p : PyPath) (ext : String) : PyPath :=
  match p.getLast? with
  | none => p
  | some name => p.dropLast ++ [pyStem name ++ ext]

/-- `Environment.get_build_path(src, build_dir, new_ext)` (environment.py
lines 95-132): `build_root / build_dir / get_rel_path(src)` with an
optional extension replacement. -/
def getBuildPath (root buildRoot src : PyPath) (bucket : String)
    (newExt : Option String) : Except Unit PyPath :=
  (getRelPath root buildRoot src).map (fun rel =>
    let full := (buildRoot ++ [bucket]) ++ rel
    match newExt with
    | some e => pyWithSuffix full e
    | none => full)

/-- The option strings declared by the argument parser of `main()`
(main.py lines 13-18); the parser additionally takes one or more positional
`target` arguments. -/
def mainOptionStrings : List String :=
  ["--construct", "--dry-run", "-B", "--always-make", "--tree"]

/-- Whether the command line front end declares an option with the given
flag string. -/
def mainDeclaresFlag (s : String) : Bool :=
  mainOptionStrings.any (fun o => o = s)

/-- The `parallel` argument of `build_targets`: `False`, `True`, or a
worker count. -/
inductive PyParallel where
  | pbool (b : Bool)
  | pnum (n : Nat)
  deriving Repr, DecidableEq

/-- `os.cpu_count() or 1` (execution.py line 276): `cpu_count()` may return
`None`. -/
def pyCpuCountOr1 : Option Nat → Nat
  | some k => if k = 0 then 1 else k
  | none => 1

/-- The normalization of `parallel` at the top of `build_targets`
(execution.py lines 275-278). -/
def normalizeParallel : PyParallel → Option Nat → Nat
  | .pbool true, cpu => pyCpuCountOr1 cpu
  | .pbool false, _ => 1
  | .pnum n, _ => n

/-- The number of worker threads actually used: a thread pool of size
`parallel` when `parallel > 1`, otherwise the sequential path — a single
worker (execution.py lines 288-292). -/
def workerCount (p : PyParallel) (cpu : Option Nat) : Nat :=
  let n := normalizeParallel p cpu
  if 1 < n then n else 1

/-- The `parallel` value `main()` passes to `build_targets`: none is passed
(main.py line 40), so the parameter default `False` applies (execution.py
line 259). -/
def mainParallelArg : PyParallel := .pbool false

/-- The effective-dependency step relation: `b` is an effective dependency
of `a`. -/
def stepRel (g : BuildGraph) (a b : NodeId) : Prop := b ∈ effDeps g a

/-- `v` is reachable from the target list along effective dependencies. -/
def Reaches (g : BuildGraph) (targets : List NodeId) (v : NodeId) : Prop :=
  ∃ t ∈ targets, Relation.ReflTransGen (stepRel g) t v

/-- The consecutive pairs of the cycle `c → p₀ → ... → pₖ → c`. -/
def cyclePairs (c : NodeId) (p : List NodeId) : List (NodeId × NodeId) :=
  (c :: p).zip (p ++ [c])

/-- The effective-dependency graph reachable from the targets contains a
cycle: some reachable `c` starts a nonempty chain of effective-dependency
steps returning to `c`. -/
def HasReachableCycle (g : BuildGraph) (targets : List NodeId) : Prop :=
  ∃ c p, Reaches g targets c ∧
    ∀ pr ∈ cyclePairs c p, stepRel g pr.1 pr.2

/-- The node universe is closed under effective dependencies. -/
def GClosed (g : BuildGraph) : Prop :=
  ∀ v ∈ g.nodes, ∀ d ∈ effDeps g v, d ∈ g.nodes

/-- Invariant of the `_traverse_node_graph` worklist loop. -/
structure TravInv (g : BuildGraph) (targets : List NodeId)
    (s : TravState) : Prop where
  tv_reach : ∀ v ∈ s.toVisit, Reaches g targets v
  seen_iff : ∀ v, v ∈ s.seen ↔ v ∈ s.reachable
  seen_reach : ∀ v ∈ s.seen, Reaches g targets v
  closure : ∀ v ∈ s.seen, ∀ d ∈ effDeps g v, d ∈ s.seen ∨ d ∈ s.toVisit
  edges_sound : ∀ pr ∈ s.edges, pr.1 ∈ s.seen ∧ pr.2 ∈ effDeps g pr.1
  edges_complete : ∀ v ∈ s.seen, ∀ d ∈ effDeps g v, (v, d) ∈ s.edges
  target_cover : ∀ t ∈ targets, t ∈ s.seen ∨ t ∈ s.toVisit
  pos_closure : ∀ pre v post, s.toVisit = pre ++ v :: post → v ∈ s.seen →
    ∀ d ∈ effDeps g v, d ∈ s.seen ∨ d ∈ pre
  tv_nodes : ∀ v ∈ s.toVisit, v ∈ g.nodes
  seen_nodes : ∀ v ∈ s.seen, v ∈ g.nodes

/-- Termination measure of the traversal loop: worklist length plus one
unit per effective dependency of each unvisited node. -/
def travPhi (g : BuildGraph) (s : TravState) : Nat :=
  s.toVisit.length +
    ((g.nodes.filter (fun v => ¬ v ∈ s.seen)).map
      (fun v => (effDeps g v).length)).sum

/-- All cycle pairs survive in the Kahn working edge map. -/
def CycHolds (cp : List (NodeId × NodeId)) (s : KahnState) : Prop :=
  ∀ pr ∈ cp, pr.2 ∈ s.edges pr.1

/-- Every node in the Kahn leaf list has an empty working dependency set. -/
def LeafEmpty (s : KahnState) : Prop :=
  ∀ m ∈ s.leaf, s.edges m = []

/-- Freshness scenario: builder 10 produces entry 0 (which depends on
entry 1), builder 20 produces the sibling entries 1 and 2.  No builder or
node has further dependencies. -/
def c1Graph : BuildGraph :=
  { nodes := [0, 1, 2]
    isEntry := fun _ => true
    builder := fun n =>
      if n = 0 then some 10 else if n = 1 ∨ n = 2 then some 20 else none
    depends := fun n => if n = 0 then [1] else []
    bdepends := fun _ => []
    bbuilds := fun b => if b = 10 then [0] else if b = 20 then [1, 2] else []
    buildResult := fun b n => if b = 10 then 100 else if n = 1 then 11 else 12 }

/-- Freshness scenario start state: entry 1 exists with metadata 10 and an
up-to-date stored signature; entries 0 and 2 are missing from the
filesystem (e.g. after an interrupted or cleaned build). -/
def c1State : FsState :=
  { fsMeta := fun n => if n = 1 then some 10 else none
    store := fun n => if n = 1 then some [] else none }

/-- The `to_build` set reported by a second `prepare_build` run immediately
after a successful first `build_targets` on targets `[0, 2]`. -/
def c1SecondToBuild : Option (List NodeId) :=
  match buildTargetsSeq c1Graph c1State [0, 2] false with
  | (_, .ok st1) =>
    match prepareBuild c1Graph st1 [0, 2] with
    | .ok pb => some pb.toBuild
    | .error _ => none
  | (_, .error _) => none

/-- At-most-once scenario: two independent stale entries 0 and 1 with
distinct builders 10 and 20 and no dependencies at all. -/
def c3Graph : BuildGraph :=
  { nodes := [0, 1]
    isEntry := fun _ => true
    builder := fun n => if n = 0 then some 10 else if n = 1 then some 20 else none
    depends := fun _ => []
    bdepends := fun _ => []
    bbuilds := fun b => if b = 10 then [0] else if b = 20 then [1] else []
    buildResult := fun _ _ => 5 }

/-- At-most-once scenario start state: nothing exists, nothing stored. -/
def c3State : FsState :=
  { fsMeta := fun _ => none, store := fun _ => none }

/-- The invocation log of a parallel `build_targets([0, 1])` run with two
workers in which the earliest submitted future always completes first. -/
def c3ParallelLog : Option (List BId) :=
  match buildTargetsPar c3Graph c3State [0, 1] false (fun _ => 0) 100 with
  | (log, .ok _) => some log
  | (_, .error _) => none

/-- Traversal duplicate scenario: node 0 explicitly depends on node 1;
no builders. -/
def c5Graph : BuildGraph :=
  { nodes := [0, 1]
    isEntry := fun _ => true
    builder := fun _ => none
    depends := fun n => if n = 0 then [1] else []
    bdepends := fun _ => []
    bbuilds := fun _ => []
    buildResult := fun _ _ => 0 }

/-- Two-node dependency cycle: 0 depends on 1, 1 depends on 0. -/
def c2Graph : BuildGraph :=
  { nodes := [0, 1]
    isEntry := fun _ => true
    builder := fun _ => none
    depends := fun n => if n = 0 then [1] else if n = 1 then [0] else []
    bdepends := fun _ => []
    bbuilds := fun _ => []
    buildResult := fun _ _ => 0 }

/-- Staleness scenario for the classification theorem: entry 0 (builder 10)
depends on source entry 1; both exist, but the signature stored for 0
records stale metadata for 1. -/
def c6Graph : BuildGraph :=
  { nodes := [0, 1]
    isEntry := fun _ => true
    builder := fun n => if n = 0 then some 10 else none
    depends := fun n => if n = 0 then [1] else []
    bdepends := fun _ => []
    bbuilds := fun b => if b = 10 then [0] else []
    buildResult := fun _ _ => 0 }

/-- Staleness scenario state: entry 1 now has metadata 5; the signature
stored for entry 0 remembers metadata 4 for it. -/
def c6State : FsState :=
  { fsMeta := fun n => if n = 0 then some 7 else if n = 1 then some 5 else none
    store := fun n => if n = 0 then some [(1, some 4)] else none }

/-- Two calls of `env.file` on the same path from a fresh `Execution`:
the ids of the two returned instances and the final interning table. -/
def c4TwoCalls : Option (Nat × Nat × List (Nat × PyNode)) :=
  match envFile { entries := [], nextId := 0 } 7 with
  | .ok (e1, ex1) =>
    match envFile ex1 7 with
    | .ok (e2, ex2) => some (e1.id, e2.id, ex2.entries)
    | .error _ => none
  | .error _ => none

/-- C1: the claim fails on the code.  On the acyclic graph `c1Graph` from
state `c1State`, `build_targets([0, 2])` completes successfully (invoking
builders 10 and 20, in that order), yet an immediate second
`prepare_build([0, 2])` reports `to_build = {0}`: builder 20 reran because
its output 2 was missing and thereby rewrote its sibling output 1, but node
0 — whose signature over 1 had already been committed — was never put in
`to_build`, so its stored signature now disagrees with the filesystem. -/
theorem freshness_violated_after_successful_build :
    (buildTargetsSeq c1Graph c1State [0, 2] false).1 = [10, 20] ∧
    ((buildTargetsSeq c1Graph c1State [0, 2] false).2.toOption.isSome
      = true) ∧
    c1SecondToBuild = some [0] := by
  refine ⟨rfl, rfl, rfl⟩

/-- C3: the claim fails on the code.  With two workers on two independent
stale nodes, after builder 10's future completes while builder 20 is still
in flight, the rescan re-adds node 1 (all dependencies built, not yet in
`built_nodes`) to the ready set and builder 20 is submitted a second time:
the invocation log is `[10, 20, 20]`. -/
theorem parallel_builder_invoked_twice :
    c3ParallelLog = some [10, 20, 20] ∧
    (c3ParallelLog.getD []).count 20 = 2 := by
  refine ⟨rfl, rfl⟩

/-- C4: the claim fails on the code.  `Entry.__new__` never stores the
freshly created instance into `execution.entries`, so two calls of
`env.file` on the same path return two distinct instances (ids 0 and 1)
and the interning table stays empty. -/
theorem interning_returns_fresh_instances :
    c4TwoCalls = some (0, 1, []) ∧ (0 : Nat) ≠ 1 := by
  refine ⟨rfl, by decide⟩

/-- C7: the claim fails on the code.  For a source lying directly in
`build_root` (root `/proj`, build root `/proj/build`, source
`/proj/build/foo.txt`), `parents.index(build_root)` is `0` and
`parents[0 - 1]` is Python's `parents[-1]`, the filesystem anchor, so
`get_rel_path` returns `proj/build/foo.txt` instead of the root-relative
`build/foo.txt` promised by the claim and by the function's docstring. -/
theorem rel_path_of_build_root_child_is_anchor_relative :
    getRelPath ["proj"] ["proj", "build"] ["proj", "build", "foo.txt"] =
      .ok ["proj", "build", "foo.txt"] ∧
    (["proj", "build", "foo.txt"] : PyPath) ≠ ["build", "foo.txt"] := by
  refine ⟨rfl, by decide⟩

/-- C8 counterexample: the argument parser of `main()` declares no `-j`
option in any form, so the claimed `-jN` worker option is not accepted by
the command line front end. -/
theorem no_dash_j_option_declared :
    mainDeclaresFlag "-j" = false ∧ mainDeclaresFlag "-j2" = false ∧
    ¬ "-j" ∈ mainOptionStrings := by
  refine ⟨rfl, rfl, by decide⟩

/-- C8 amended: the front end accepts exactly `--construct`, `--dry-run`,
`-B`/`--always-make` and `--tree` (plus positional targets) and passes no
`parallel` value, so the build runs with the default `parallel=False`;
`build_targets` itself maps `parallel=False` to one worker, `parallel=True`
to `os.cpu_count() or 1` workers, and `parallel=N ≥ 1` to `N` workers. -/
theorem cli_options_and_worker_mapping (cpu : Option Nat) (k n : Nat)
    (hk : 1 ≤ k) (hn : 1 ≤ n) :
    mainOptionStrings =
      ["--construct", "--dry-run", "-B", "--always-make", "--tree"] ∧
    mainDeclaresFlag "-j" = false ∧
    mainParallelArg = .pbool false ∧
    workerCount (.pbool false) cpu = 1 ∧
    workerCount (.pbool true) (some k) = k ∧
    workerCount (.pnum n) cpu = n := by
  refine ⟨rfl, rfl, rfl, rfl, ?_, ?_⟩
  · simp only [workerCount, normalizeParallel, pyCpuCountOr1]
    split
    · omega
    · split <;> omega
  · simp only [workerCount, normalizeParallel]
    split <;> omega

/-- Witness for the amended C8 theorem at `cpu = some 4`, `k = 4`,
`n = 2`. -/
theorem cli_options_and_worker_mapping_witness :
    (1 ≤ 4 ∧ 1 ≤ 2) ∧
    (mainOptionStrings =
        ["--construct", "--dry-run", "-B", "--always-make", "--tree"] ∧
      mainDeclaresFlag "-j" = false ∧
      mainParallelArg = .pbool false ∧
      workerCount (.pbool false) (some 4) = 1 ∧
      workerCount (.pbool true) (some 4) = 4 ∧
      workerCount (.pnum 2) (some 4) = 2) :=
  ⟨⟨by decide, by decide⟩,
    cli_options_and_worker_mapping (some 4) 4 2 (by decide) (by decide)⟩

/-- C9: for two instances of the same entry variant, `Entry.__eq__` holds
exactly when the absolute paths are equal, `Entry.__hash__` is the hash of
the path, equal entries hash equally, and two same-variant instances with
the same path are interchangeable for membership in any set keyed by entry
equality. -/
theorem entry_eq_iff_same_path (h : Nat → Nat) (a b : PyNode)
    (_hEnt : isEntryVariant a.variant = true) (hv : a.variant = b.variant) :
    ((entryEqPy a b = true) ↔ a.path = b.path) ∧
    entryHashPy h a = a.path.map h ∧
    (entryEqPy a b = true → entryHashPy h a = entryHashPy h b) ∧
    (a.path = b.path → ∀ s : List PyNode, pyNodeMem s a = pyNodeMem s b) := by
  refine ⟨?_, rfl, ?_, ?_⟩
  · simp [entryEqPy, hv]
  · intro he
    have hp : a.path = b.path := by
      simpa [entryEqPy, hv] using he
    simp [entryHashPy, hp]
  · intro hp s
    simp [pyNodeMem, entryEqPy, hv, hp]

/-- Witness for the entry-equality theorem: two `File` instances with
different ids but the same path. -/
theorem entry_eq_iff_same_path_witness :
    (isEntryVariant PyVariant.file = true ∧
      (PyVariant.file : PyVariant) = PyVariant.file) ∧
    (((entryEqPy ⟨0, .file, some 3⟩ ⟨1, .file, some 3⟩ = true) ↔
        (some 3 : Option Nat) = some 3) ∧
      entryHashPy Nat.succ ⟨0, .file, some 3⟩ = (some 3).map Nat.succ ∧
      (entryEqPy ⟨0, .file, some 3⟩ ⟨1, .file, some 3⟩ = true →
        entryHashPy Nat.succ ⟨0, .file, some 3⟩ =
          entryHashPy Nat.succ ⟨1, .file, some 3⟩) ∧
      ((some 3 : Option Nat) = some 3 →
        ∀ s : List PyNode,
          pyNodeMem s ⟨0, .file, some 3⟩ = pyNodeMem s ⟨1, .file, some 3⟩)) :=
  ⟨⟨by decide, rfl⟩,
    entry_eq_iff_same_path Nat.succ ⟨0, .file, some 3⟩ ⟨1, .file, some 3⟩
      (by decide) rfl⟩

/-- C10: for a string/path argument whose absolute form is not interned,
`FileSet.add` succeeds exactly when the path currently exists on the
filesystem — as a fresh `File` when it is a file, as a fresh `Dir` when it
is a directory — and raises `ValueError` otherwise, consulting no builder
information; a `Node` argument is added unconditionally; every added node
is recorded both in the file set's `depends` set and in its source list. -/
theorem fileset_add_requires_existing_path (st : FsAddState) (p : Nat)
    (n : PyNode) (hmiss : st.entries.find? (fun q => q.1 = p) = none) :
    (st.isFile p = true →
      fileSetAdd st (.strPath p) = .ok
        { st with nextId := st.nextId + 1,
                  depends := depAdd st.depends
                    ⟨st.nextId, .file, some p⟩,
                  sources := st.sources ++ [⟨st.nextId, .file, some p⟩] }) ∧
    (st.isFile p = false → st.isDir p = true →
      fileSetAdd st (.strPath p) = .ok
        { st with nextId := st.nextId + 1,
                  depends := depAdd st.depends
                    ⟨st.nextId, .dir, some p⟩,
                  sources := st.sources ++ [⟨st.nextId, .dir, some p⟩] }) ∧
    (st.isFile p = false → st.isDir p = false →
      fileSetAdd st (.strPath p) = .error "Path not found.") ∧
    (fileSetAdd st (.node n) = .ok
      { st with depends := depAdd st.depends n,
                sources := st.sources ++ [n] }) := by
  refine ⟨?_, ?_, ?_, ?_⟩
  · intro hf
    simp [fileSetAdd, fsSize, fsAddLoop, hmiss, hf]
  · intro hf hd
    simp [fileSetAdd, fsSize, fsAddLoop, hmiss, hf, hd]
  · intro hf hd
    simp [fileSetAdd, fsSize, fsAddLoop, hmiss, hf, hd]
  · simp [fileSetAdd, fsSize, fsAddLoop]

/-- Witness for the `FileSet.add` theorem on a state in which path 1 is a
file, path 2 a directory, and path 3 absent, with nothing interned. -/
theorem fileset_add_requires_existing_path_witness :
    ((List.find? (fun q => q.1 = 1)
        ([] : List (Nat × PyNode)) = none) ∧
      (fileSetAdd
          { entries := [], isFile := fun p => p = 1,
            isDir := fun p => p = 2, nextId := 0, depends := [],
            sources := [] } (.strPath 1)).toOption.isSome = true) := by
  constructor
  · rfl
  · have h := fileset_add_requires_existing_path
      { entries := [], isFile := fun p => p = 1, isDir := fun p => p = 2,
        nextId := 0, depends := [], sources := [] } 1
      ⟨9, .fileset, none⟩ rfl
    rw [h.1 (by decide)]
    rfl

/-- C5 counterexample: a duplicated target list.  With node 0 depending on
node 1, `_traverse_node_graph([0, 0])` pops node 0 twice (it is pushed
twice before ever being marked seen) and records the edge `(0, 1)` twice,
refuting "each `(node, dep)` pair is recorded exactly once"; the reachable
list also lists node 0 twice. -/
theorem traverse_records_duplicate_edges :
    (traverseNodeGraph c5Graph [0, 0]).edges = [(0, 1), (0, 1)] ∧
    (traverseNodeGraph c5Graph [0, 0]).edges.count (0, 1) = 2 ∧
    (traverseNodeGraph c5Graph [0, 0]).reachable = [0, 1, 0] := by
  refine ⟨rfl, rfl, rfl⟩

theorem mem_pySetAdd {l : List NodeId} {x y : NodeId} :
    x ∈ pySetAdd l y ↔ x ∈ l ∨ x = y := by
  unfold pySetAdd
  split
  · rename_i hy
    constructor
    · exact Or.inl
    · rintro (h | rfl)
      · exact h
      · exact hy
  · simp

theorem pySetAdd_superset {l : List NodeId} {x y : NodeId} (h : x ∈ l) :
    x ∈ pySetAdd l y :=
  mem_pySetAdd.mpr (Or.inl h)

theorem self_mem_pySetAdd {l : List NodeId} {y : NodeId} :
    y ∈ pySetAdd l y :=
  mem_pySetAdd.mpr (Or.inr rfl)

theorem pySetAdd_nodup {l : List NodeId} {y : NodeId} (h : l.Nodup) :
    (pySetAdd l y).Nodup := by
  unfold pySetAdd
  split
  · exact h
  · rename_i hy
    simpa [List.nodup_append] using ⟨h, hy⟩

theorem mem_pySetUnion {l xs : List NodeId} {x : NodeId} :
    x ∈ pySetUnion l xs ↔ x ∈ l ∨ x ∈ xs := by
  unfold pySetUnion
  induction xs generalizing l with
  | nil => simp
  | cons y ys ih =>
    simp only [List.foldl_cons, ih, mem_pySetAdd, List.mem_cons]
    tauto

theorem mem_pyDedup {xs : List NodeId} {x : NodeId} :
    x ∈ pyDedup xs ↔ x ∈ xs := by
  unfold pyDedup
  have : ∀ acc, x ∈ xs.foldl pySetAdd acc ↔ x ∈ acc ∨ x ∈ xs := by
    induction xs with
    | nil => simp
    | cons y ys ih =>
      intro acc
      simp only [List.foldl_cons, ih, mem_pySetAdd, List.mem_cons]
      tauto
  simp [this []]

theorem pyDedup_nodup (xs : List NodeId) : (pyDedup xs).Nodup := by
  unfold pyDedup
  have : ∀ acc : List NodeId, acc.Nodup → (xs.foldl pySetAdd acc).Nodup := by
    induction xs with
    | nil => exact fun acc h => h
    | cons y ys ih => exact fun acc h => ih _ (pySetAdd_nodup h)
  exact this [] List.nodup_nil

theorem sum_map_filter_le (l : List NodeId) (p : NodeId → Prop)
    [DecidablePred p] (f : NodeId → Nat) :
    ((l.filter (fun x => decide (p x))).map f).sum ≤ (l.map f).sum := by
  induction l with
  | nil => simp
  | cons y ys ih =>
    by_cases hy : p y <;> simp [hy] <;> omega

theorem mem_effDeps_nodes {g : BuildGraph} (hg : GClosed g) {v d : NodeId}
    (hv : v ∈ g.nodes) (hd : d ∈ effDeps g v) : d ∈ g.nodes :=
  hg v hv d hd

theorem reaches_tail {g : BuildGraph} {targets : List NodeId}
    {v d : NodeId} (hv : Reaches g targets v) (hd : d ∈ effDeps g v) :
    Reaches g targets d := by
  obtain ⟨t, ht, htv⟩ := hv
  exact ⟨t, ht, htv.tail hd⟩

theorem travStep_seen (g : BuildGraph) (v : NodeId) (rest : List NodeId)
    (s : TravState) :
    (travStep g v rest s).seen = pySetAdd s.seen v := rfl

theorem travStep_reachable (g : BuildGraph) (v : NodeId)
    (rest : List NodeId) (s : TravState) :
    (travStep g v rest s).reachable = s.reachable ++ [v] := rfl

theorem travStep_edges (g : BuildGraph) (v : NodeId) (rest : List NodeId)
    (s : TravState) :
    (travStep g v rest s).edges =
      s.edges ++ (effDeps g v).map (fun d => (v, d)) := rfl

theorem travStep_toVisit (g : BuildGraph) (v : NodeId) (rest : List NodeId)
    (s : TravState) :
    (travStep g v rest s).toVisit =
      ((effDeps g v).filter
        (fun d => ¬ d ∈ pySetAdd s.seen v)).reverse ++ rest := rfl

theorem travInv_step (g : BuildGraph) (targets : List NodeId)
    (hg : GClosed g) {v : NodeId} {rest : List NodeId} {s : TravState}
    (hInv : TravInv g targets s) (htv : s.toVisit = v :: rest) :
    TravInv g targets (travStep g v rest s) := by
  have hvTv : v ∈ s.toVisit := by rw [htv]; exact List.mem_cons_self v rest
  have hvReach : Reaches g targets v := hInv.tv_reach v hvTv
  have hvNode : v ∈ g.nodes := hInv.tv_nodes v hvTv
  have hrestTv : ∀ x ∈ rest, x ∈ s.toVisit := by
    intro x hx; rw [htv]; exact List.mem_cons_of_mem _ hx
  have hPush : ∀ x, x ∈ ((effDeps g v).filter
      (fun d => ¬ d ∈ pySetAdd s.seen v)).reverse →
      x ∈ effDeps g v ∧ ¬ x ∈ pySetAdd s.seen v := by
    intro x hx
    rw [List.mem_reverse] at hx
    have := List.mem_filter.mp hx
    exact ⟨this.1, by simpa using this.2⟩
  constructor
  case tv_reach =>
    intro x hx
    rw [travStep_toVisit, List.mem_append] at hx
    rcases hx with hx | hx
    · exact reaches_tail hvReach (hPush x hx).1
    · exact hInv.tv_reach x (hrestTv x hx)
  case seen_iff =>
    intro x
    rw [travStep_seen, travStep_reachable, mem_pySetAdd, List.mem_append,
      List.mem_singleton, hInv.seen_iff x]
  case seen_reach =>
    intro x hx
    rw [travStep_seen, mem_pySetAdd] at hx
    rcases hx with hx | rfl
    · exact hInv.seen_reach x hx
    · exact hvReach
  case closure =>
    intro x hx d hd
    rw [travStep_seen, mem_pySetAdd] at hx
    rw [travStep_seen, travStep_toVisit]
    rcases hx with hx | rfl
    · rcases hInv.closure x hx d hd with hds | hdt
      · exact Or.inl (pySetAdd_superset hds)
      · rw [htv] at hdt
        rcases List.mem_cons.mp hdt with rfl | hdr
        · exact Or.inl self_mem_pySetAdd
        · exact Or.inr (List.mem_append.mpr (Or.inr hdr))
    · by_cases hds : d ∈ pySetAdd s.seen x
      · exact Or.inl hds
      · refine Or.inr (List.mem_append.mpr (Or.inl ?_))
        rw [List.mem_reverse]
        exact List.mem_filter.mpr ⟨hd, by simpa using hds⟩
  case edges_sound =>
    intro pr hpr
    rw [travStep_edges, List.mem_append] at hpr
    rw [travStep_seen]
    rcases hpr with hpr | hpr
    · have := hInv.edges_sound pr hpr
      exact ⟨pySetAdd_superset this.1, this.2⟩
    · obtain ⟨d, hd, rfl⟩ := List.mem_map.mp hpr
      exact ⟨self_mem_pySetAdd, hd⟩
  case edges_complete =>
    intro x hx d hd
    rw [travStep_seen, mem_pySetAdd] at hx
    rw [travStep_edges, List.mem_append]
    rcases hx with hx | rfl
    · exact Or.inl (hInv.edges_complete x hx d hd)
    · exact Or.inr (List.mem_map.mpr ⟨d, hd, rfl⟩)
  case target_cover =>
    intro t ht
    rw [travStep_seen, travStep_toVisit]
    rcases hInv.target_cover t ht with hts | htt
    · exact Or.inl (pySetAdd_superset hts)
    · rw [htv] at htt
      rcases List.mem_cons.mp htt with rfl | htr
      · exact Or.inl self_mem_pySetAdd
      · exact Or.inr (List.mem_append.mpr (Or.inr htr))
  case pos_closure =>
    intro pre x post hsplit hx d hd
    rw [travStep_seen] at hx ⊢
    rw [travStep_toVisit] at hsplit
    have hCase : ∀ mid, rest = mid ++ x :: post → mid ⊆ pre →
        ((effDeps g v).filter
          (fun e => ¬ e ∈ pySetAdd s.seen v)).reverse ⊆ pre →
        d ∈ pySetAdd s.seen v ∨ d ∈ pre := by
      intro mid hmid hmidsub hpushsub
      rcases mem_pySetAdd.mp hx with hxs | rfl
      · have hOld : s.toVisit = (v :: mid) ++ x :: post := by
          rw [htv, hmid]; rfl
        rcases hInv.pos_closure (v :: mid) x post hOld hxs d hd with
          hds | hdp
        · exact Or.inl (pySetAdd_superset hds)
        · rcases List.mem_cons.mp hdp with rfl | hdm
          · exact Or.inl self_mem_pySetAdd
          · exact Or.inr (hmidsub hdm)
      · by_cases hds : d ∈ pySetAdd s.seen x
        · exact Or.inl hds
        · refine Or.inr (hpushsub ?_)
          rw [List.mem_reverse]
          exact List.mem_filter.mpr ⟨hd, by simpa using hds⟩
    rcases List.append_eq_append_iff.mp hsplit with
      ⟨mid, hpre, hrest⟩ | ⟨mid, hpushrev, hxpostrest⟩
    · refine hCase mid hrest ?_ ?_
      · intro y hy
        rw [hpre]
        exact List.mem_append.mpr (Or.inr hy)
      · intro y hy
        rw [hpre]
        exact List.mem_append.mpr (Or.inl hy)
    · cases mid with
      | nil =>
        refine hCase [] ?_ (by simp) ?_
        · simpa using hxpostrest.symm
        · intro y hy
          rw [hpushrev] at hy
          simpa using hy
      | cons y mid2 =>
        exfalso
        have hxy : x = y := by
          have := hxpostrest
          simp only [List.cons_append] at this
          exact (List.cons_eq_cons.mp this).1
        have hxIn : x ∈ ((effDeps g v).filter
            (fun e => ¬ e ∈ pySetAdd s.seen v)).reverse := by
          rw [hpushrev, hxy]
          exact List.mem_append.mpr
            (Or.inr (List.mem_cons_self _ _))
        exact (hPush x hxIn).2 hx
  case tv_nodes =>
    intro x hx
    rw [travStep_toVisit, List.mem_append] at hx
    rcases hx with hx | hx
    · exact hg v hvNode x (hPush x hx).1
    · exact hInv.tv_nodes x (hrestTv x hx)
  case seen_nodes =>
    intro x hx
    rw [travStep_seen, mem_pySetAdd] at hx
    rcases hx with hx | rfl
    · exact hInv.seen_nodes x hx
    · exact hvNode

theorem pySetAdd_of_mem {l : List NodeId} {v : NodeId} (h : v ∈ l) :
    pySetAdd l v = l := by
  unfold pySetAdd
  simp [h]

theorem sum_filter_insert (l : List NodeId) (f : NodeId → Nat)
    (seen : List NodeId) (v : NodeId) (hnd : l.Nodup) (hv : v ∈ l)
    (hvs : ¬ v ∈ seen) :
    ((l.filter (fun x => decide (¬ x ∈ pySetAdd seen v))).map f).sum + f v =
      ((l.filter (fun x => decide (¬ x ∈ seen))).map f).sum := by
  induction l with
  | nil => cases hv
  | cons y ys ih =>
    have hndt : ys.Nodup := (List.nodup_cons.mp hnd).2
    have hyn : ¬ y ∈ ys := (List.nodup_cons.mp hnd).1
    rcases List.mem_cons.mp hv with rfl | hvt
    · have hfilter : ys.filter (fun x => decide (¬ x ∈ pySetAdd seen v)) =
          ys.filter (fun x => decide (¬ x ∈ seen)) := by
        apply List.filter_congr
        intro x hx
        have hxy : ¬ x = v := fun h => hyn (h ▸ hx)
        simp [mem_pySetAdd, hxy]
      rw [List.filter_cons_of_neg (by simp [self_mem_pySetAdd]),
        List.filter_cons_of_pos (by simp [hvs]), hfilter]
      simp [Nat.add_comm]
    · have hvy : ¬ v = y := fun h => hyn (h ▸ hvt)
      have hyv : ¬ y = v := fun h => hvy h.symm
      by_cases hys : y ∈ seen
      · rw [List.filter_cons_of_neg (by simp [mem_pySetAdd, hys]),
          List.filter_cons_of_neg (by simp [hys])]
        exact ih hndt hvt
      · rw [List.filter_cons_of_pos (by simp [mem_pySetAdd, hys, hyv]),
          List.filter_cons_of_pos (by simp [hys])]
        simp only [List.map_cons, List.sum_cons]
        have := ih hndt hvt
        omega

theorem travPhi_step_lt (g : BuildGraph) (targets : List NodeId)
    (hnd : g.nodes.Nodup) {v : NodeId} {rest : List NodeId} {s : TravState}
    (hInv : TravInv g targets s) (htv : s.toVisit = v :: rest) :
    travPhi g (travStep g v rest s) < travPhi g s := by
  have hvTv : v ∈ s.toVisit := by rw [htv]; exact List.mem_cons_self v rest
  unfold travPhi
  rw [travStep_toVisit, travStep_seen, htv]
  by_cases hvs : v ∈ s.seen
  · have hseen : pySetAdd s.seen v = s.seen := pySetAdd_of_mem hvs
    have hdeps : ∀ d ∈ effDeps g v, d ∈ s.seen := by
      intro d hd
      rcases hInv.pos_closure [] v rest (by rw [htv]; rfl) hvs d hd with
        h | h
      · exact h
      · cases h
    have hpush : (effDeps g v).filter
        (fun d => decide (¬ d ∈ pySetAdd s.seen v)) = [] := by
      rw [List.filter_eq_nil_iff]
      intro d hd
      simp [hseen, hdeps d hd]
    rw [hpush, hseen]
    simp
  · have hvNode : v ∈ g.nodes := hInv.tv_nodes v hvTv
    have hsum : ((g.nodes.filter
          (fun x => decide (¬ x ∈ pySetAdd s.seen v))).map
            (fun v => (effDeps g v).length)).sum + (effDeps g v).length =
        ((g.nodes.filter (fun x => decide (¬ x ∈ s.seen))).map
          (fun v => (effDeps g v).length)).sum :=
      sum_filter_insert g.nodes
        (fun v => (effDeps g v).length) s.seen v hnd hvNode hvs
    have hpushlen : (((effDeps g v).filter
        (fun d => decide (¬ d ∈ pySetAdd s.seen v))).reverse).length ≤
        (effDeps g v).length := by
      rw [List.length_reverse]
      exact List.length_filter_le _ _
    simp only [List.length_append, List.length_cons]
    omega

theorem travLoop_succ_nil (g : BuildGraph) (n : Nat) (s : TravState)
    (h : s.toVisit = []) : travLoop g (n + 1) s = s := by
  conv_lhs => rw [travLoop]
  rw [h]

theorem travLoop_succ_cons (g : BuildGraph) (n : Nat) (s : TravState)
    (v : NodeId) (rest : List NodeId) (h : s.toVisit = v :: rest) :
    travLoop g (n + 1) s = travLoop g n (travStep g v rest s) := by
  conv_lhs => rw [travLoop]
  rw [h]

theorem travLoop_adequate (g : BuildGraph) (targets : List NodeId)
    (hg : GClosed g) (hnd : g.nodes.Nodup) :
    ∀ fuel s, TravInv g targets s → travPhi g s < fuel →
      TravInv g targets (travLoop g fuel s) ∧
        (travLoop g fuel s).toVisit = [] := by
  intro fuel
  induction fuel with
  | zero => intro s _ h; omega
  | succ n ih =>
    intro s hInv hphi
    rcases htv : s.toVisit with _ | ⟨v, rest⟩
    · rw [travLoop_succ_nil g n s htv]
      exact ⟨hInv, htv⟩
    · rw [travLoop_succ_cons g n s v rest htv]
      have hstep := travInv_step g targets hg hInv htv
      have hlt := travPhi_step_lt g targets hnd hInv htv
      exact ih (travStep g v rest s) hstep (by omega)

theorem travInv_init (g : BuildGraph) (targets : List NodeId)
    (ht : ∀ t ∈ targets, t ∈ g.nodes) :
    TravInv g targets
      { reachable := [], edges := [], seen := [], toVisit := targets.reverse } := by
  constructor
  case tv_reach =>
    intro x hx
    rw [List.mem_reverse] at hx
    exact ⟨x, hx, Relation.ReflTransGen.refl⟩
  case seen_iff => intro x; simp
  case seen_reach => intro x hx; cases hx
  case closure => intro x hx; cases hx
  case edges_sound => intro pr hpr; cases hpr
  case edges_complete => intro x hx; cases hx
  case target_cover =>
    intro t ht2
    exact Or.inr (List.mem_reverse.mpr ht2)
  case pos_closure =>
    intro pre x post hsplit hx
    cases hx
  case tv_nodes =>
    intro x hx
    exact ht x (List.mem_reverse.mp hx)
  case seen_nodes => intro x hx; cases hx

theorem travPhi_init_lt (g : BuildGraph) (targets : List NodeId) :
    travPhi g
        { reachable := [], edges := [], seen := [], toVisit := targets.reverse } <
      travFuel g targets := by
  unfold travPhi travFuel
  simp only [List.length_reverse]
  have hfil : g.nodes.filter (fun v => decide (¬ v ∈ ([] : List NodeId))) =
      g.nodes := by
    apply List.filter_eq_self.mpr
    intro a _
    simp
  rw [hfil]
  omega

theorem traverse_adequate (g : BuildGraph) (targets : List NodeId)
    (hg : GClosed g) (hnd : g.nodes.Nodup)
    (ht : ∀ t ∈ targets, t ∈ g.nodes) :
    TravInv g targets (traverseNodeGraph g targets) ∧
      (traverseNodeGraph g targets).toVisit = [] := by
  unfold traverseNodeGraph
  exact travLoop_adequate g targets hg hnd (travFuel g targets) _
    (travInv_init g targets ht) (travPhi_init_lt g targets)

theorem reaches_mem_seen (g : BuildGraph) (targets : List NodeId)
    (hg : GClosed g) (hnd : g.nodes.Nodup)
    (ht : ∀ t ∈ targets, t ∈ g.nodes) {v : NodeId}
    (hv : Reaches g targets v) :
    v ∈ (traverseNodeGraph g targets).seen := by
  obtain ⟨hInv, htv⟩ := traverse_adequate g targets hg hnd ht
  obtain ⟨t, htt, hrt⟩ := hv
  have hseent : t ∈ (traverseNodeGraph g targets).seen := by
    rcases hInv.target_cover t htt with h | h
    · exact h
    · rw [htv] at h; cases h
  clear htt
  induction hrt with
  | refl => exact hseent
  | tail _ hstep ih =>
    rename_i b c _
    rcases hInv.closure b ih c hstep with h | h
    · exact h
    · rw [htv] at h; cases h

/-- Adequacy of `_traverse_node_graph` (the amended C5 statement): the
returned node list contains exactly the nodes reachable from the targets
along effective dependencies (possibly with repeats when a node is pushed
multiple times before its first visit), and the `(node, dep)` pairs of the
returned edge map are exactly the effective-dependency pairs of the
reachable nodes (again possibly with repeats). -/
theorem traverse_reachable_and_edges (g : BuildGraph)
    (targets : List NodeId) (hg : GClosed g) (hnd : g.nodes.Nodup)
    (ht : ∀ t ∈ targets, t ∈ g.nodes) :
    (∀ v, v ∈ (traverseNodeGraph g targets).reachable ↔
        Reaches g targets v) ∧
    (∀ n d, (n, d) ∈ (traverseNodeGraph g targets).edges ↔
        (Reaches g targets n ∧ d ∈ effDeps g n)) := by
  obtain ⟨hInv, _⟩ := traverse_adequate g targets hg hnd ht
  constructor
  · intro v
    constructor
    · intro hv
      exact hInv.seen_reach v ((hInv.seen_iff v).mpr hv)
    · intro hv
      exact (hInv.seen_iff v).mp (reaches_mem_seen g targets hg hnd ht hv)
  · intro n d
    constructor
    · intro hnd2
      have := hInv.edges_sound (n, d) hnd2
      exact ⟨hInv.seen_reach n this.1, this.2⟩
    · intro ⟨hn, hd⟩
      exact hInv.edges_complete n
        (reaches_mem_seen g targets hg hnd ht hn) d hd

theorem foldl_erase_keep (v : NodeId) (ms : List NodeId)
    (f : NodeId → List NodeId) (x b : NodeId) (hbv : b ≠ v)
    (hb : b ∈ f x) :
    b ∈ (ms.foldl (fun f m => fupd f m ((f m).erase v)) f) x := by
  induction ms generalizing f with
  | nil => exact hb
  | cons m ms ih =>
    simp only [List.foldl_cons]
    apply ih
    unfold fupd
    by_cases hxm : x = m
    · subst hxm
      simp only [if_pos rfl]
      exact (List.mem_erase_of_ne hbv).mpr hb
    · simpa [hxm] using hb

theorem foldl_erase_empty (v : NodeId) (ms : List NodeId)
    (f : NodeId → List NodeId) (x : NodeId) (hx : f x = []) :
    (ms.foldl (fun f m => fupd f m ((f m).erase v)) f) x = [] := by
  induction ms generalizing f with
  | nil => exact hx
  | cons m ms ih =>
    simp only [List.foldl_cons]
    apply ih
    unfold fupd
    by_cases hxm : x = m
    · subst hxm
      simp [hx]
    · simpa [hxm] using hx

theorem kahnStep_edges (v : NodeId) (rest : List NodeId) (s : KahnState) :
    (kahnStep v rest s).edges =
      (s.rev v).foldl (fun f m => fupd f m ((f m).erase v)) s.edges := rfl

theorem kahnStep_leaf (v : NodeId) (rest : List NodeId) (s : KahnState) :
    (kahnStep v rest s).leaf =
      ((s.rev v).filter
        (fun m => ((s.rev v).foldl
          (fun f m => fupd f m ((f m).erase v)) s.edges) m = [])).reverse ++
        rest := rfl

theorem kahn_step_inv (v : NodeId) (rest : List NodeId) (s : KahnState)
    (cp : List (NodeId × NodeId)) (hle : LeafEmpty s)
    (hleaf : s.leaf = v :: rest) (hcyc : CycHolds cp s)
    (hclosed : ∀ pr ∈ cp, ∃ pr2 ∈ cp, pr2.1 = pr.2) :
    LeafEmpty (kahnStep v rest s) ∧ CycHolds cp (kahnStep v rest s) := by
  have hvleaf : v ∈ s.leaf := by rw [hleaf]; exact List.mem_cons_self v rest
  have hvE : s.edges v = [] := hle v hvleaf
  constructor
  · intro m hm
    rw [kahnStep_leaf, List.mem_append] at hm
    rw [kahnStep_edges]
    rcases hm with hm | hm
    · rw [List.mem_reverse] at hm
      have := List.mem_filter.mp hm
      simpa using this.2
    · apply foldl_erase_empty
      apply hle
      rw [hleaf]
      exact List.mem_cons_of_mem _ hm
  · intro pr hpr
    rw [kahnStep_edges]
    obtain ⟨pr2, hpr2, hfst⟩ := hclosed pr hpr
    have hsnd : s.edges pr.2 ≠ [] := by
      rw [← hfst]
      intro hempty
      have := hcyc pr2 hpr2
      rw [hempty] at this
      cases this
    have hbv : pr.2 ≠ v := by
      intro h
      rw [h] at hsnd
      exact hsnd hvE
    exact foldl_erase_keep v (s.rev v) s.edges pr.1 pr.2 hbv (hcyc pr hpr)

theorem kahnLoop_succ_nil (n : Nat) (s : KahnState) (h : s.leaf = []) :
    kahnLoop (n + 1) s = s := by
  conv_lhs => rw [kahnLoop]
  rw [h]

theorem kahnLoop_succ_cons (n : Nat) (s : KahnState) (v : NodeId)
    (rest : List NodeId) (h : s.leaf = v :: rest) :
    kahnLoop (n + 1) s = kahnLoop n (kahnStep v rest s) := by
  conv_lhs => rw [kahnLoop]
  rw [h]

theorem kahn_loop_inv (cp : List (NodeId × NodeId))
    (hclosed : ∀ pr ∈ cp, ∃ pr2 ∈ cp, pr2.1 = pr.2) :
    ∀ fuel s, LeafEmpty s → CycHolds cp s →
      LeafEmpty (kahnLoop fuel s) ∧ CycHolds cp (kahnLoop fuel s) := by
  intro fuel
  induction fuel with
  | zero => intro s h1 h2; exact ⟨h1, h2⟩
  | succ n ih =>
    intro s h1 h2
    rcases hleaf : s.leaf with _ | ⟨v, rest⟩
    · rw [kahnLoop_succ_nil n s hleaf]
      exact ⟨h1, h2⟩
    · rw [kahnLoop_succ_cons n s v rest hleaf]
      obtain ⟨h1s, h2s⟩ := kahn_step_inv v rest s cp h1 hleaf h2 hclosed
      exact ih _ h1s h2s

theorem mem_kEdges0 {pairs : List (NodeId × NodeId)} {a b : NodeId}
    (h : (a, b) ∈ pairs) : b ∈ kEdges0 pairs a := by
  unfold kEdges0
  rw [mem_pyDedup]
  unfold edgesOf
  rw [List.mem_map]
  exact ⟨(a, b), List.mem_filter.mpr ⟨h, by simp⟩, rfl⟩

theorem mem_keysOf {pairs : List (NodeId × NodeId)} {a b : NodeId}
    (h : (a, b) ∈ pairs) : a ∈ keysOf pairs := by
  unfold keysOf
  rw [mem_pyDedup, List.mem_map]
  exact ⟨(a, b), h, rfl⟩

theorem kahnInit_leafEmpty (nodes : List NodeId)
    (pairs : List (NodeId × NodeId)) :
    LeafEmpty (kahnInit nodes pairs) := by
  intro m hm
  unfold kahnInit at hm ⊢
  simp only at hm ⊢
  rw [List.mem_reverse] at hm
  have := List.mem_filter.mp hm
  simpa using this.2

theorem kahnInit_cycHolds (nodes : List NodeId)
    (pairs : List (NodeId × NodeId)) (cp : List (NodeId × NodeId))
    (hmem : ∀ pr ∈ cp, (pr.1, pr.2) ∈ pairs) :
    CycHolds cp (kahnInit nodes pairs) := by
  intro pr hpr
  unfold kahnInit
  simp only
  exact mem_kEdges0 (hmem pr hpr)

theorem cycle_edges_in_residual (nodes : List NodeId)
    (pairs : List (NodeId × NodeId)) (cp : List (NodeId × NodeId))
    (hmem : ∀ pr ∈ cp, (pr.1, pr.2) ∈ pairs)
    (hclosed : ∀ pr ∈ cp, ∃ pr2 ∈ cp, pr2.1 = pr.2) :
    ∀ pr ∈ cp, pr ∈ kahnResidual pairs
      (kahnLoop (kahnFuel nodes pairs) (kahnInit nodes pairs)) := by
  intro pr hpr
  obtain ⟨-, hcyc⟩ := kahn_loop_inv cp hclosed (kahnFuel nodes pairs)
    (kahnInit nodes pairs) (kahnInit_leafEmpty nodes pairs)
    (kahnInit_cycHolds nodes pairs cp hmem)
  unfold kahnResidual
  rw [List.mem_flatMap]
  refine ⟨pr.1, mem_keysOf (hmem pr hpr), ?_⟩
  rw [List.mem_map]
  exact ⟨pr.2, hcyc pr hpr, rfl⟩

theorem sortDag_of_cycle (nodes : List NodeId)
    (pairs : List (NodeId × NodeId)) (cp : List (NodeId × NodeId))
    (hne : cp ≠ []) (hmem : ∀ pr ∈ cp, (pr.1, pr.2) ∈ pairs)
    (hclosed : ∀ pr ∈ cp, ∃ pr2 ∈ cp, pr2.1 = pr.2) :
    ∃ res, sortDag nodes pairs = .error res ∧ res ≠ [] ∧
      ∀ pr ∈ cp, pr ∈ res := by
  have hres := cycle_edges_in_residual nodes pairs cp hmem hclosed
  rcases hcp : cp with _ | ⟨pr0, cptl⟩
  · exact absurd hcp hne
  · have hpr0 : pr0 ∈ kahnResidual pairs
        (kahnLoop (kahnFuel nodes pairs) (kahnInit nodes pairs)) := by
      apply hres
      rw [hcp]
      exact List.mem_cons_self _ _
    have hresne : kahnResidual pairs
        (kahnLoop (kahnFuel nodes pairs) (kahnInit nodes pairs)) ≠ [] := by
      intro h
      rw [h] at hpr0
      cases hpr0
    refine ⟨kahnResidual pairs
      (kahnLoop (kahnFuel nodes pairs) (kahnInit nodes pairs)), ?_, hresne,
      fun pr hpr2 => hres pr (hcp ▸ hpr2)⟩
    unfold sortDag
    simp only [if_neg hresne]

theorem chain_all_reach (g : BuildGraph) (targets : List NodeId) :
    ∀ (p : List NodeId) (c t : NodeId), Reaches g targets c →
      (∀ pr ∈ (c :: p).zip (p ++ [t]), stepRel g pr.1 pr.2) →
      ∀ x ∈ c :: p, Reaches g targets x := by
  intro p
  induction p with
  | nil =>
    intro c t hc _ x hx
    rcases List.mem_cons.mp hx with rfl | hx2
    · exact hc
    · cases hx2
  | cons q qs ih =>
    intro c t hc hsteps x hx
    have hstep0 : stepRel g c q := by
      have : ((c, q) : NodeId × NodeId) ∈ (c :: q :: qs).zip (q :: qs ++ [t]) := by
        simp
      exact hsteps (c, q) this
    have hq : Reaches g targets q := reaches_tail hc hstep0
    rcases List.mem_cons.mp hx with rfl | hx2
    · exact hc
    · refine ih q t hq ?_ x hx2
      intro pr hpr
      apply hsteps
      simp only [List.cons_append, List.zip_cons_cons]
      exact List.mem_cons_of_mem _ hpr

theorem cyclePairs_fst (c : NodeId) (p : List NodeId) :
    (cyclePairs c p).map Prod.fst = c :: p := by
  unfold cyclePairs
  apply List.map_fst_zip
  simp

theorem cyclePairs_snd (c : NodeId) (p : List NodeId) :
    (cyclePairs c p).map Prod.snd = p ++ [c] := by
  unfold cyclePairs
  apply List.map_snd_zip
  simp

theorem cyclePairs_ne_nil (c : NodeId) (p : List NodeId) :
    cyclePairs c p ≠ [] := by
  intro h
  have := congrArg List.length (cyclePairs_fst c p)
  rw [h] at this
  simp at this

theorem cyclePairs_snd_closed (c : NodeId) (p : List NodeId) :
    ∀ pr ∈ cyclePairs c p, ∃ pr2 ∈ cyclePairs c p, pr2.1 = pr.2 := by
  intro pr hpr
  have hsnd : pr.2 ∈ (cyclePairs c p).map Prod.snd :=
    List.mem_map.mpr ⟨pr, hpr, rfl⟩
  rw [cyclePairs_snd] at hsnd
  have hfst : pr.2 ∈ (cyclePairs c p).map Prod.fst := by
    rw [cyclePairs_fst]
    rcases List.mem_append.mp hsnd with h | h
    · exact List.mem_cons_of_mem _ h
    · rw [List.mem_singleton] at h
      rw [h]
      exact List.mem_cons_self _ _
  obtain ⟨pr2, hpr2, heq⟩ := List.mem_map.mp hfst
  exact ⟨pr2, hpr2, heq⟩

/-- C2: on any target set whose reachable effective-dependency graph
contains a cycle, `prepare_build` fails with the cycle `DependencyError`
carrying the nonempty residual edge list of the topological sort (which
includes every edge of the cycle), and `build_targets` — sequential or
parallel — fails the same way with an empty invocation log: no builder's
`build()` runs. -/
theorem cycle_error_before_any_build (g : BuildGraph) (st : FsState)
    (targets : List NodeId) (dryRun : Bool) (sched : Nat → Nat)
    (parFuel : Nat) (hg : GClosed g) (hnd : g.nodes.Nodup)
    (ht : ∀ t ∈ targets, t ∈ g.nodes)
    (hcyc : HasReachableCycle g targets) :
    ∃ res, res ≠ [] ∧
      prepareBuild g st targets = .error (.cycle res) ∧
      buildTargetsSeq g st targets dryRun = ([], .error (.cycle res)) ∧
      buildTargetsPar g st targets dryRun sched parFuel =
        ([], .error (.cycle res)) := by
  obtain ⟨c, p, hreach, hsteps⟩ := hcyc
  have hedges := (traverse_reachable_and_edges g targets hg hnd ht).2
  have hmem : ∀ pr ∈ cyclePairs c p,
      (pr.1, pr.2) ∈ (traverseNodeGraph g targets).edges := by
    intro pr hpr
    apply (hedges pr.1 pr.2).mpr
    constructor
    · apply chain_all_reach g targets p c c hreach hsteps
      have : pr.1 ∈ (cyclePairs c p).map Prod.fst :=
        List.mem_map.mpr ⟨pr, hpr, rfl⟩
      rwa [cyclePairs_fst] at this
    · exact hsteps pr hpr
  obtain ⟨res, hsort, hresne, -⟩ :=
    sortDag_of_cycle (traverseNodeGraph g targets).reachable
      (traverseNodeGraph g targets).edges (cyclePairs c p)
      (cyclePairs_ne_nil c p) hmem (cyclePairs_snd_closed c p)
  have hprep : prepareBuild g st targets = .error (.cycle res) := by
    simp only [prepareBuild]
    rw [hsort]
  refine ⟨res, hresne, hprep, ?_, ?_⟩
  · unfold buildTargetsSeq
    rw [hprep]
  · unfold buildTargetsPar
    rw [hprep]

/-- Witness for the cycle theorem on the two-node cycle `c2Graph` with
target `[0]`. -/
theorem cycle_error_before_any_build_witness :
    (GClosed c2Graph ∧ c2Graph.nodes.Nodup ∧
      (∀ t ∈ [0], t ∈ c2Graph.nodes) ∧ HasReachableCycle c2Graph [0]) ∧
    (∃ res, res ≠ [] ∧
      prepareBuild c2Graph
        { fsMeta := fun _ => none, store := fun _ => none } [0] =
        .error (.cycle res) ∧
      buildTargetsSeq c2Graph
        { fsMeta := fun _ => none, store := fun _ => none } [0] false =
        ([], .error (.cycle res)) ∧
      buildTargetsPar c2Graph
        { fsMeta := fun _ => none, store := fun _ => none } [0] false
        (fun _ => 0) 50 = ([], .error (.cycle res))) := by
  have hg : GClosed c2Graph := by
    show ∀ v ∈ c2Graph.nodes, ∀ d ∈ effDeps c2Graph v, d ∈ c2Graph.nodes
    decide
  have hnd : c2Graph.nodes.Nodup := by decide
  have ht : ∀ t ∈ [0], t ∈ c2Graph.nodes := by decide
  have hcyc : HasReachableCycle c2Graph [0] := by
    refine ⟨0, [1], ⟨0, by decide, Relation.ReflTransGen.refl⟩, ?_⟩
    intro pr hpr
    have : cyclePairs 0 [1] = [(0, 1), (1, 0)] := by decide
    rw [this] at hpr
    rcases List.mem_cons.mp hpr with rfl | hpr2
    · show (1 : NodeId) ∈ effDeps c2Graph 0
      decide
    · rcases List.mem_cons.mp hpr2 with rfl | hpr3
      · show (0 : NodeId) ∈ effDeps c2Graph 1
        decide
      · cases hpr3
  exact ⟨⟨hg, hnd, ht, hcyc⟩,
    cycle_error_before_any_build c2Graph
      { fsMeta := fun _ => none, store := fun _ => none } [0] false
      (fun _ => 0) 50 hg hnd ht hcyc⟩

/-- Witness for the traversal adequacy theorem on `c5Graph` with the
duplicated target list `[0, 0]`. -/
theorem traverse_reachable_and_edges_witness :
    (GClosed c5Graph ∧ c5Graph.nodes.Nodup ∧
      (∀ t ∈ [0, 0], t ∈ c5Graph.nodes)) ∧
    ((∀ v, v ∈ (traverseNodeGraph c5Graph [0, 0]).reachable ↔
        Reaches c5Graph [0, 0] v) ∧
      (∀ n d, (n, d) ∈ (traverseNodeGraph c5Graph [0, 0]).edges ↔
        (Reaches c5Graph [0, 0] n ∧ d ∈ effDeps c5Graph n))) := by
  have hg : GClosed c5Graph := by
    show ∀ v ∈ c5Graph.nodes, ∀ d ∈ effDeps c5Graph v, d ∈ c5Graph.nodes
    decide
  have hnd : c5Graph.nodes.Nodup := by decide
  have ht : ∀ t ∈ [0, 0], t ∈ c5Graph.nodes := by decide
  exact ⟨⟨hg, hnd, ht⟩,
    traverse_reachable_and_edges c5Graph [0, 0] hg hnd ht⟩

theorem prepareBuild_ok_fields (g : BuildGraph) (st : FsState)
    (targets : List NodeId) (pb : PreparedBuild)
    (h : prepareBuild g st targets = .ok pb) :
    pb.allNodes = (traverseNodeGraph g targets).reachable ∧
    pb.entryDependencies =
      (fun n =>
        (allDepsOf g (traverseNodeGraph g targets).edges n).getD []) ∧
    pb.outOfDate = (classify g st pb.entryDependencies pb.allNodes).1 ∧
    pb.changed = (classify g st pb.entryDependencies pb.allNodes).2 := by
  simp only [prepareBuild] at h
  split at h
  · cases h
  · split at h
    · split at h
      · cases h
      · rw [Except.ok.injEq] at h
        subst h
        exact ⟨rfl, rfl, rfl, rfl⟩
    · cases h

theorem changed_fold_mono (old newSig : Sig) (deps : List NodeId)
    (ch : List NodeId) {x : NodeId} (hx : x ∈ ch) :
    x ∈ deps.foldl
      (fun ch dep =>
        if sigGet old dep ≠ sigGet newSig dep then pySetAdd ch dep
        else ch) ch := by
  induction deps generalizing ch with
  | nil => exact hx
  | cons d ds ih =>
    simp only [List.foldl_cons]
    apply ih
    split
    · exact pySetAdd_superset hx
    · exact hx

theorem changed_fold_mem (old newSig : Sig) (deps : List NodeId)
    (ch : List NodeId) {x : NodeId} (hx : x ∈ deps)
    (hcond : sigGet old x ≠ sigGet newSig x) :
    x ∈ deps.foldl
      (fun ch dep =>
        if sigGet old dep ≠ sigGet newSig dep then pySetAdd ch dep
        else ch) ch := by
  induction deps generalizing ch with
  | nil => cases hx
  | cons d ds ih =>
    simp only [List.foldl_cons]
    rcases List.mem_cons.mp hx with rfl | hx2
    · apply changed_fold_mono
      rw [if_pos hcond]
      exact self_mem_pySetAdd
    · exact ih _ hx2

theorem classifyStep_subset (g : BuildGraph) (st : FsState)
    (adMap : NodeId → List NodeId) (acc : List NodeId × List NodeId)
    (node : NodeId) :
    (∀ x ∈ acc.1, x ∈ (classifyStep g st adMap acc node).1) ∧
    (∀ x ∈ acc.2, x ∈ (classifyStep g st adMap acc node).2) := by
  unfold classifyStep
  split
  · split
    · exact ⟨fun x hx => pySetAdd_superset hx, fun x hx => hx⟩
    · split
      · exact ⟨fun x hx => pySetAdd_superset hx, fun x hx => hx⟩
      · dsimp only
        split
        · exact ⟨fun x hx => hx, fun x hx => hx⟩
        · exact ⟨fun x hx => pySetAdd_superset hx,
            fun x hx => changed_fold_mono _ _ _ _ hx⟩
  · exact ⟨fun x hx => hx, fun x hx => hx⟩

theorem classify_fold_mono (g : BuildGraph) (st : FsState)
    (adMap : NodeId → List NodeId) (l : List NodeId)
    (acc : List NodeId × List NodeId) :
    (∀ x ∈ acc.1, x ∈ (l.foldl (classifyStep g st adMap) acc).1) ∧
    (∀ x ∈ acc.2, x ∈ (l.foldl (classifyStep g st adMap) acc).2) := by
  induction l generalizing acc with
  | nil => exact ⟨fun x hx => hx, fun x hx => hx⟩
  | cons n ns ih =>
    simp only [List.foldl_cons]
    have h1 := classifyStep_subset g st adMap acc n
    have h2 := ih (classifyStep g st adMap acc n)
    exact ⟨fun x hx => h2.1 x (h1.1 x hx), fun x hx => h2.2 x (h1.2 x hx)⟩

theorem classify_aux (g : BuildGraph) (st : FsState)
    (adMap : NodeId → List NodeId) :
    ∀ (l : List NodeId) (acc : List NodeId × List NodeId) (e : NodeId)
      (old : Sig),
      e ∈ l → g.isEntry e = true → (g.builder e).isSome = true →
      (st.fsMeta e).isSome = true → st.store e = some old →
      sigEq old (sigOf st (adMap e)) = false →
      e ∈ (l.foldl (classifyStep g st adMap) acc).1 ∧
      ∀ dep ∈ adMap e,
        sigGet old dep ≠ sigGet (sigOf st (adMap e)) dep →
        dep ∈ (l.foldl (classifyStep g st adMap) acc).2 := by
  intro l
  induction l with
  | nil => intro acc e old he; cases he
  | cons n ns ih =>
    intro acc e old he hent hb hex hold hdiff
    rcases List.mem_cons.mp he with rfl | he2
    · simp only [List.foldl_cons]
      have hstep : classifyStep g st adMap acc e =
          (pySetAdd acc.1 e,
            (adMap e).foldl
              (fun ch dep =>
                if sigGet old dep ≠ sigGet (sigOf st (adMap e)) dep
                then pySetAdd ch dep else ch)
              acc.2) := by
        unfold classifyStep
        rw [if_pos ⟨by rw [hent], by rw [hb]⟩]
        have hnotnone : ¬ st.fsMeta e = none := by
          intro h
          rw [h] at hex
          cases hex
        rw [if_neg hnotnone, hold]
        simp only [hdiff]
        rw [if_neg (by simp)]
      rw [hstep]
      have hmono := classify_fold_mono g st adMap ns
        (pySetAdd acc.1 e,
          (adMap e).foldl
            (fun ch dep =>
              if sigGet old dep ≠ sigGet (sigOf st (adMap e)) dep
              then pySetAdd ch dep else ch)
            acc.2)
      constructor
      · exact hmono.1 e self_mem_pySetAdd
      · intro dep hdep hcond
        exact hmono.2 dep (changed_fold_mem old (sigOf st (adMap e))
          (adMap e) acc.2 hdep hcond)
    · simp only [List.foldl_cons]
      exact ih (classifyStep g st adMap acc n) e old he2 hent hb hex hold
        hdiff

/-- C6: whenever `prepare_build` completes, every entry `e` with a builder
whose path exists and whose *stored* signature differs from the freshly
computed one is classified outdated, and every ancestor entry whose
metadata value differs between the stored and the fresh signature is added
to the changed set. -/
theorem stale_entry_outdated_and_changed (g : BuildGraph) (st : FsState)
    (targets : List NodeId) (pb : PreparedBuild) (e : NodeId) (old : Sig)
    (hpb : prepareBuild g st targets = .ok pb)
    (he : e ∈ pb.allNodes)
    (hent : g.isEntry e = true)
    (hb : (g.builder e).isSome = true)
    (hex : (st.fsMeta e).isSome = true)
    (hold : st.store e = some old)
    (hdiff : sigEq old (sigOf st (pb.entryDependencies e)) = false) :
    e ∈ pb.outOfDate ∧
    ∀ dep ∈ pb.entryDependencies e,
      sigGet old dep ≠ sigGet (sigOf st (pb.entryDependencies e)) dep →
      dep ∈ pb.changed := by
  obtain ⟨-, -, hout, hch⟩ := prepareBuild_ok_fields g st targets pb hpb
  rw [hout, hch]
  unfold classify
  exact classify_aux g st pb.entryDependencies pb.allNodes ([], []) e old he
    hent hb hex hold hdiff

/-- Witness for the staleness classification theorem on `c6Graph` /
`c6State`: entry 0's stored signature remembers metadata 4 for ancestor 1,
which now reports 5, so 0 is outdated and 1 is marked changed. -/
theorem stale_entry_outdated_and_changed_witness :
    ∃ pb, prepareBuild c6Graph c6State [0] = .ok pb ∧
      (0 ∈ pb.allNodes ∧ c6Graph.isEntry 0 = true ∧
        (c6Graph.builder 0).isSome = true ∧
        (c6State.fsMeta 0).isSome = true ∧
        c6State.store 0 = some [(1, some 4)] ∧
        sigEq [(1, some 4)] (sigOf c6State (pb.entryDependencies 0)) =
          false) ∧
      0 ∈ pb.outOfDate ∧ 1 ∈ pb.changed := by
  refine ⟨_, rfl, ⟨?_, ?_, ?_, ?_, ?_, ?_⟩, ?_⟩
  · decide
  · decide
  · decide
  · decide
  · decide
  · decide
  · have h := stale_entry_outdated_and_changed c6Graph c6State [0] _ 0
      [(1, some 4)] rfl (by decide) (by decide) (by decide) (by decide)
      (by decide) (by decide)
    exact ⟨h.1, h.2 1 (by decide) (by decide)⟩
